import Mathlib

/-
Verification of the alpha-beta fireball parameter estimation notebook
(alpha_beta_v0_fun.ipynb).

Numbers are modelled as exact rationals extended with the IEEE special
values +inf, -inf and NaN (type FV below): the notebook relies on numpy
semantics for these special values (np.nansum skips NaN, scipy expi(0)
is -inf, exp(-inf) is 0.0, division of a negative float by 0.0 is -inf),
and several claims are precisely about that behaviour.  Rounding and
overflow of finite values are idealised away: a finite float is modelled
as an exact rational.

The transcendental functions exp and expi have no computable exact
rational form; the embedding is parametrised by arbitrary functions
E, Ei : Q -> Q giving their values at finite arguments, and extends
them to the special values exactly as numpy/scipy do (expFV, expiFV).
Every theorem below holds for all such E and Ei, so in particular for
the true exp / expi restricted to the rationals in play.
-/

namespace AlphaBeta

/-- An IEEE-style value: a finite (exact) rational, a signed infinity,
or NaN. -/
inductive FV where
  | fin : ℚ → FV
  | pinf : FV
  | ninf : FV
  | nan : FV
deriving DecidableEq

/-- IEEE addition on FV (finite values added exactly). -/
def FV.add : FV → FV → FV
  | FV.nan, _ => FV.nan
  | _, FV.nan => FV.nan
  | FV.fin a, FV.fin b => FV.fin (a + b)
  | FV.fin _, FV.pinf => FV.pinf
  | FV.fin _, FV.ninf => FV.ninf
  | FV.pinf, FV.fin _ => FV.pinf
  | FV.ninf, FV.fin _ => FV.ninf
  | FV.pinf, FV.pinf => FV.pinf
  | FV.ninf, FV.ninf => FV.ninf
  | FV.pinf, FV.ninf => FV.nan
  | FV.ninf, FV.pinf => FV.nan

/-- IEEE negation on FV. -/
def FV.neg : FV → FV
  | FV.fin a => FV.fin (-a)
  | FV.pinf => FV.ninf
  | FV.ninf => FV.pinf
  | FV.nan => FV.nan

/-- IEEE subtraction on FV. -/
def FV.sub (a b : FV) : FV := a.add b.neg

/-- IEEE multiplication on FV (inf times 0 is NaN). -/
def FV.mul : FV → FV → FV
  | FV.nan, _ => FV.nan
  | _, FV.nan => FV.nan
  | FV.fin a, FV.fin b => FV.fin (a * b)
  | FV.fin a, FV.pinf => if 0 < a then FV.pinf else if a < 0 then FV.ninf else FV.nan
  | FV.fin a, FV.ninf => if 0 < a then FV.ninf else if a < 0 then FV.pinf else FV.nan
  | FV.pinf, FV.fin b => if 0 < b then FV.pinf else if b < 0 then FV.ninf else FV.nan
  | FV.ninf, FV.fin b => if 0 < b then FV.ninf else if b < 0 then FV.pinf else FV.nan
  | FV.pinf, FV.pinf => FV.pinf
  | FV.pinf, FV.ninf => FV.ninf
  | FV.ninf, FV.pinf => FV.ninf
  | FV.ninf, FV.ninf => FV.pinf

/-- IEEE division on FV; a nonzero finite value divided by (positive)
zero gives a signed infinity, as in numpy with warnings suppressed. -/
def FV.div : FV → FV → FV
  | FV.nan, _ => FV.nan
  | _, FV.nan => FV.nan
  | FV.fin a, FV.fin b =>
      if b = 0 then (if 0 < a then FV.pinf else if a < 0 then FV.ninf else FV.nan)
      else FV.fin (a / b)
  | FV.fin _, FV.pinf => FV.fin 0
  | FV.fin _, FV.ninf => FV.fin 0
  | FV.pinf, FV.fin b => if 0 ≤ b then FV.pinf else FV.ninf
  | FV.ninf, FV.fin b => if 0 ≤ b then FV.ninf else FV.pinf
  | _, _ => FV.nan

/-- Squaring, as Python pow(x, 2): both infinities square to +inf. -/
def FV.sq : FV → FV
  | FV.fin a => FV.fin (a * a)
  | FV.nan => FV.nan
  | _ => FV.pinf

/-- Cubing, as Python pow(x, 3.0) on the values we use: -inf cubes
to -inf (odd integral exponent). -/
def FV.cube : FV → FV
  | FV.fin a => FV.fin (a ^ 3)
  | FV.pinf => FV.pinf
  | FV.ninf => FV.ninf
  | FV.nan => FV.nan

/-- The finite payload of an FV, if any. -/
def FV.toFin? : FV → Option ℚ
  | FV.fin q => some q
  | _ => none

/-- np.exp extended to special values: exp(-inf) = 0.0, exp(inf) = inf,
exp(NaN) = NaN; at a finite argument q it is the (positive, finite)
value E q of the parameter function E. -/
def expFV (E : ℚ → ℚ) : FV → FV
  | FV.fin q => FV.fin (E q)
  | FV.pinf => FV.pinf
  | FV.ninf => FV.fin 0
  | FV.nan => FV.nan

/-- scipy.special.expi extended to special values: expi(0) = -inf (the
exponential integral diverges to -inf at 0), expi(-inf) = 0,
expi(inf) = inf, expi(NaN) = NaN; at a finite nonzero argument q it is
the finite value Ei q of the parameter function Ei. -/
def expiFV (Ei : ℚ → ℚ) : FV → FV
  | FV.fin q => if q = 0 then FV.ninf else FV.fin (Ei q)
  | FV.pinf => FV.pinf
  | FV.ninf => FV.fin 0
  | FV.nan => FV.nan

/-- np.nansum: every NaN entry is replaced by 0, then the list is summed
left to right with IEEE addition.  Infinities are NOT replaced; they
propagate into the sum. -/
def nansum (l : List FV) : FV :=
  l.foldl (fun acc t => acc.add (if t = FV.nan then FV.fin 0 else t)) (FV.fin 0)

/-- One term of the Q4 objective, from the body of min_fun in the
notebook:
  pow(2 * x[0] * np.exp(-yvals[i])
      - (expi(x[1]) - expi(x[1]*vval**2)) * np.exp(-x[1]), 2)
with x = (a, b), vval = v, yvals[i] = y. -/
def Q4term (E Ei : ℚ → ℚ) (a b v y : ℚ) : FV :=
  FV.sq (FV.sub (FV.mul (FV.fin (2 * a)) (expFV E (FV.fin (-y))))
    (FV.mul (FV.sub (expiFV Ei (FV.fin b)) (expiFV Ei (FV.fin (b * v ^ 2))))
      (expFV E (FV.fin (-b)))))

/-- The termwise residual list built by the loop in min_fun
(res.append(...) for i in range(len(vvals))); the Python loop indexes
yvals[i] in parallel with vvals[i], which List.zip renders for parallel
arrays. -/
def Q4terms (E Ei : ℚ → ℚ) (x : ℚ × ℚ) (vvals yvals : List ℚ) : List FV :=
  (vvals.zip yvals).map (fun p => Q4term E Ei x.1 x.2 p.1 p.2)

/-- min_fun from the notebook: the residual list summed with np.nansum.
The err argument is accepted and ignored, exactly as in the source. -/
def min_fun (E Ei : ℚ → ℚ) (x : ℚ × ℚ) (vvals yvals : List ℚ)
    (err : List ℚ) : FV :=
  nansum (Q4terms E Ei x vvals yvals)

/-- The spec wording of the objective for claim C1: the sum over the
terms with EVERY non-finite term (NaN or a signed infinity) excluded,
so the result is always finite.  Written from the spec sentence, to be
compared with min_fun above. -/
def min_fun_specNF (E Ei : ℚ → ℚ) (x : ℚ × ℚ) (vvals yvals : List ℚ) : FV :=
  FV.fin (((Q4terms E Ei x vvals yvals).filterMap FV.toFin?).sum)

/-- The type of an abstract bounds-constrained minimiser over two
parameters, standing for scipy.optimize.minimize with bounds: it takes
the objective, the initial point and the lower/upper bound pairs and
returns a point. -/
def Minimizer2 : Type := ((ℚ × ℚ) → FV) → (ℚ × ℚ) → (ℚ × ℚ) → (ℚ × ℚ) → (ℚ × ℚ)

/-- The documented contract of a bounds-constrained minimiser: whenever
the box is sane (lower bound at most upper bound in each coordinate),
the returned point satisfies the bounds. -/
def InBounds2 (M : Minimizer2) : Prop :=
  ∀ f x0 lo hi, lo.1 ≤ hi.1 → lo.2 ≤ hi.2 →
    (lo.1 ≤ (M f x0 lo hi).1 ∧ (M f x0 lo hi).1 ≤ hi.1) ∧
    (lo.2 ≤ (M f x0 lo hi).2 ∧ (M f x0 lo hi).2 ≤ hi.2)

/-- Q4_min from the notebook.  Yglob is the module-level Yvalues array
the source reads for the initial guess (np.exp(Yvalues[-1]) refers to
the global, not to the yvals argument); Yvalues[-1] on an empty global
raises IndexError, rendered as none.  b0 = 1, a0 = exp(Yvalues[-1])/(2*b0),
bounds ((0.01, 1000), (0.0001, 20)); the minimiser result is returned
as is. -/
def Q4_min (E Ei : ℚ → ℚ) (M : Minimizer2) (Yglob : List ℚ)
    (vvals yvals err : List ℚ) : Option (ℚ × ℚ) :=
  match Yglob.getLast? with
  | none => none
  | some yl =>
    let b0 : ℚ := 1
    let a0 : ℚ := E yl / (2 * b0)
    some (M (fun x => min_fun E Ei x vvals yvals err) (a0, b0)
      (1/100, 1/10000) (1000, 20))

/-- min_fun_v from the notebook: as min_fun, but each raw velocity is
normalised inside the objective by vval = velocities[i] / (x[2]*1000). -/
def min_fun_v (E Ei : ℚ → ℚ) (x : ℚ × ℚ × ℚ) (velocities yvals : List ℚ)
    (err : List ℚ) : FV :=
  nansum ((velocities.zip yvals).map
    (fun p => Q4term E Ei x.1 x.2.1 (p.1 / (x.2.2 * 1000)) p.2))

/-- The type of an abstract bounds-constrained minimiser over three
parameters. -/
def Minimizer3 : Type :=
  ((ℚ × ℚ × ℚ) → FV) → (ℚ × ℚ × ℚ) → (ℚ × ℚ × ℚ) → (ℚ × ℚ × ℚ) → (ℚ × ℚ × ℚ)

/-- Bounds contract for a three-parameter minimiser. -/
def InBounds3 (M : Minimizer3) : Prop :=
  ∀ f x0 lo hi, lo.1 ≤ hi.1 → lo.2.1 ≤ hi.2.1 → lo.2.2 ≤ hi.2.2 →
    (lo.1 ≤ (M f x0 lo hi).1 ∧ (M f x0 lo hi).1 ≤ hi.1) ∧
    (lo.2.1 ≤ (M f x0 lo hi).2.1 ∧ (M f x0 lo hi).2.1 ≤ hi.2.1) ∧
    (lo.2.2 ≤ (M f x0 lo hi).2.2 ∧ (M f x0 lo hi).2.2 ≤ hi.2.2)

/-- Q4_min_v from the notebook: heights are normalised locally
(Yvalues = [j / h0 for j in heights], shadowing the global), b0 = 0.01,
a0 = exp(Yvalues[-1])/(2*b0), x0 = [a0, b0, V0/1000], bounds
((0.01, 1000), (0.0001, 20), (V0*0.95/1000, V0*1.05/1000)); the third
component of the optimum is multiplied back by 1000 before returning. -/
def Q4_min_v (E Ei : ℚ → ℚ) (M : Minimizer3) (velocities heights : List ℚ)
    (h0 V0 : ℚ) (err : List ℚ) : Option (ℚ × ℚ × ℚ) :=
  let Yv := heights.map (fun j => j / h0)
  match Yv.getLast? with
  | none => none
  | some yl =>
    let b0 : ℚ := 1/100
    let a0 : ℚ := E yl / (2 * b0)
    let r := M (fun x => min_fun_v E Ei x velocities Yv err)
      (a0, b0, V0 / 1000)
      (1/100, 1/10000, V0 * (95/100) / 1000)
      (1000, 20, V0 * (105/100) / 1000)
    some (r.1, r.2.1, r.2.2 * 1000)

/-- The velocity filter of the Section 1.1 normalisation cell: a row
(velocity, height) of the table is kept exactly when its velocity
exceeds 1 (the source loop appends when data[vel_col][v] > 1.). -/
def keptRows (data : List (ℚ × ℚ)) : List (ℚ × ℚ) :=
  data.filter (fun p => 1 < p.1)

/-- np.nanmean of a list of (finite) values: the mean when the list is
nonempty, NaN for the empty list (numpy emits a warning and returns
nan; the notebook suppresses warnings). -/
def nanmeanQ (l : List ℚ) : FV :=
  if l.length = 0 then FV.nan else FV.fin (l.sum / (l.length : ℚ))

/-- The auto-computed reference velocity of the normalisation cell:
np.nanmean(vel[0:10]) where vel is the list of velocities that survived
the filter. -/
def v0autoFull (data : List (ℚ × ℚ)) : FV :=
  nanmeanQ (((keptRows data).map Prod.fst).take 10)

/-- Which Python exception, if any, the normalisation cell raises. -/
inductive NormErr where
  | indexError : NormErr
  | insufficientDataError : NormErr
deriving DecidableEq

/-- The outputs of the Section 1.1 normalisation cell. -/
structure NormOut where
  vel : List ℚ
  alt : List ℚ
  v0 : FV
  h0 : ℚ
  Vvalues : List FV
  Yvalues : List ℚ
deriving DecidableEq

/-- Result of running the normalisation cell: either its outputs or the
exception it raised. -/
inductive NormResult where
  | err : NormErr → NormResult
  | ok : NormOut → NormResult
deriving DecidableEq

/-- The Section 1.1 normalisation cell.  Rows are filtered by
velocity > 1; if no reference velocity was supplied (v0 == []), it is
np.nanmean of the first 10 surviving velocities (NaN when there are
none); Vvalues = vel / v0 elementwise; then alt[0] selects the scale
height h0 (7.160 for km data, 7160.0 for metres) — on an empty height
array this indexing raises IndexError; finally Yvalues = alt / h0. -/
def normCell (v0given : Option ℚ) (data : List (ℚ × ℚ)) : NormResult :=
  let vel := (keptRows data).map Prod.fst
  let alt := (keptRows data).map Prod.snd
  let v0 : FV := match v0given with
    | some q => FV.fin q
    | none => nanmeanQ (vel.take 10)
  let Vvalues := vel.map (fun v => FV.div (FV.fin v) v0)
  match alt.head? with
  | none => NormResult.err NormErr.indexError
  | some a0 =>
    let h0 : ℚ := if a0 < 1000 then 716/100 else 7160
    NormResult.ok
      { vel := vel, alt := alt, v0 := v0, h0 := h0,
        Vvalues := Vvalues, Yvalues := alt.map (fun a => a / h0) }

/-- One pass of the Section 2.1 smoothing cell: for v in
range(1, len(vel)-1) it appends (vel[v-1]+vel[v]+vel[v+1])/3 and alt[v];
with i = v-1 this is the pair of lists below (in-range indices only are
ever touched by the source loop, so getD is exact on them). -/
def smoothPass (vel alt : List ℚ) : List ℚ × List ℚ :=
  ((List.range (vel.length - 2)).map
      (fun i => (vel.getD i 0 + vel.getD (i + 1) 0 + vel.getD (i + 2) 0) / 3),
   (List.range (vel.length - 2)).map (fun i => alt.getD (i + 1) 0))

/-- The full Section 2.1 cell: the pass applied twice (vel1/alt1, then
vel_smooth/alt_smooth). -/
def smoothTwice (vel alt : List ℚ) : List ℚ × List ℚ :=
  smoothPass (smoothPass vel alt).1 (smoothPass vel alt).2

/-- The final-mass expression m_txt of the Section 1 mass cell:
  pow(0.5*cd*1.29*7160.*A / (alpha*np.sin(slope)*rho**(2/3)), 3.0)
    * np.exp(-beta/(1-mu)) * (1-Vvalues[-1]**2).
The transcendental subterms sin(slope) and rho**(2/3) are supplied as
rational stand-ins s and rho23; vlast stands for Vvalues[-1]. -/
def m_txt (E : ℚ → ℚ) (alpha beta mu cd rho23 A s vlast : ℚ) : FV :=
  FV.mul
    (FV.mul
      (FV.cube (FV.div (FV.fin ((1/2) * cd * (129/100) * 7160 * A))
        (FV.fin (alpha * s * rho23))))
      (expFV E (FV.div (FV.fin (-beta)) (FV.fin (1 - mu)))))
    (FV.fin (1 - vlast ^ 2))

/-- A concrete stand-in for exp: the constant function 1. -/
def E0 : ℚ → ℚ := fun _ => 1

/-- A concrete stand-in for expi: the constant function 1. -/
def Ei0 : ℚ → ℚ := fun _ => 1

/-- A concrete injective stand-in for exp. -/
def E1 : ℚ → ℚ := fun q => q + 1

/-- A concrete two-parameter minimiser returning the lower bounds;
it satisfies InBounds2. -/
def Mlo2 : Minimizer2 := fun _ _ lo _ => lo

/-- A concrete three-parameter minimiser returning the lower bounds;
it satisfies InBounds3. -/
def Mlo3 : Minimizer3 := fun _ _ lo _ => lo

/-- A concrete two-parameter minimiser returning its starting point
(an immediately converging run). -/
def Mx0 : Minimizer2 := fun _ x0 _ _ => x0

/-- A value that is finite or NaN (not a signed infinity). -/
def FV.finOrNan (t : FV) : Prop := (∃ q, t = FV.fin q) ∨ t = FV.nan

theorem nansum_aux (l : List FV) : ∀ s : ℚ, (∀ t ∈ l, FV.finOrNan t) →
    l.foldl (fun acc t => acc.add (if t = FV.nan then FV.fin 0 else t)) (FV.fin s)
      = FV.fin (s + (l.filterMap FV.toFin?).sum) := by
  induction l with
  | nil => intro s _; simp
  | cons t ts ih =>
    intro s h
    rcases h t (List.mem_cons_self t ts) with ⟨q, rfl⟩ | rfl
    · have hstep : (FV.fin s).add (if FV.fin q = FV.nan then FV.fin 0 else FV.fin q)
          = FV.fin (s + q) := by simp [FV.add]
      rw [List.foldl_cons, hstep, ih (s + q) (fun u hu => h u (List.mem_cons_of_mem _ hu))]
      simp [FV.toFin?, add_assoc]
    · have hstep : (FV.fin s).add (if FV.nan = FV.nan then FV.fin 0 else FV.nan)
          = FV.fin s := by simp [FV.add]
      rw [List.foldl_cons, hstep, ih s (fun u hu => h u (List.mem_cons_of_mem _ hu))]
      simp [FV.toFin?]

theorem nansum_of_finOrNan (l : List FV) (h : ∀ t ∈ l, FV.finOrNan t) :
    nansum l = FV.fin ((l.filterMap FV.toFin?).sum) := by
  have := nansum_aux l 0 h
  simpa [nansum] using this

theorem nansum_of_allNan (l : List FV) (h : ∀ t ∈ l, t = FV.nan) :
    nansum l = FV.fin 0 := by
  rw [nansum_of_finOrNan l (fun t ht => Or.inr (h t ht))]
  have hnil : l.filterMap FV.toFin? = [] := by
    induction l with
    | nil => rfl
    | cons t ts ih =>
      have ht := h t (List.mem_cons_self t ts)
      subst ht
      rw [List.filterMap_cons]
      simpa [FV.toFin?] using ih (fun u hu => h u (List.mem_cons_of_mem _ hu))
  simp [hnil]

theorem Q4term_nan_of_beta_zero (E Ei : ℚ → ℚ) (a v y : ℚ) :
    Q4term E Ei a 0 v y = FV.nan := by
  simp [Q4term, expiFV, expFV, FV.sub, FV.add, FV.neg, FV.mul, FV.sq]

theorem Q4term_eq_fin (E Ei : ℚ → ℚ) (a b v y : ℚ) (hb : b ≠ 0) (hv : v ≠ 0) :
    Q4term E Ei a b v y =
      FV.fin ((2 * a * E (-y) - (Ei b - Ei (b * v ^ 2)) * E (-b)) ^ 2) := by
  have hbv : b * v ^ 2 ≠ 0 := mul_ne_zero hb (pow_ne_zero 2 hv)
  simp [Q4term, expiFV, expFV, FV.sub, FV.add, FV.neg, FV.mul, FV.sq, hb, hbv]
  ring

theorem Q4term_finOrNan (E Ei : ℚ → ℚ) (a b v y : ℚ) (hv : v ≠ 0) :
    FV.finOrNan (Q4term E Ei a b v y) := by
  by_cases hb : b = 0
  · subst hb
    exact Or.inr (Q4term_nan_of_beta_zero E Ei a v y)
  · exact Or.inl ⟨_, Q4term_eq_fin E Ei a b v y hb hv⟩

theorem nansum_map_fin {α : Type} (g : α → ℚ) (l : List α) :
    nansum (l.map (fun p => FV.fin (g p))) = FV.fin ((l.map g).sum) := by
  rw [nansum_of_finOrNan]
  · congr 1
    rw [List.filterMap_map]
    exact congrArg List.sum (congrFun (List.filterMap_eq_map g) l)
  · intro t ht
    simp only [List.mem_map] at ht
    obtain ⟨p, _, rfl⟩ := ht
    exact Or.inl ⟨_, rfl⟩

theorem min_fun_v_eq_min_fun (E Ei : ℚ → ℚ) (x : ℚ × ℚ × ℚ)
    (velocities yvals err err2 : List ℚ) :
    min_fun_v E Ei x velocities yvals err
      = min_fun E Ei (x.1, x.2.1)
          (velocities.map (fun v => v / (x.2.2 * 1000))) yvals err2 := by
  simp only [min_fun_v, min_fun, Q4terms, List.zip_map_left, List.map_map]
  rfl

theorem Mlo2_inBounds : InBounds2 Mlo2 := by
  intro f x0 lo hi h1 h2
  exact ⟨⟨le_refl _, h1⟩, le_refl _, h2⟩

theorem Mlo3_inBounds : InBounds3 Mlo3 := by
  intro f x0 lo hi h1 h2 h3
  exact ⟨⟨le_refl _, h1⟩, ⟨le_refl _, h2⟩, le_refl _, h3⟩

/-- Claim C1, counterexample.  The claim says every non-finite term is
excluded from the objective sum.  np.nansum only excludes NaN: at
alpha = beta = 1 with a single data point v = 0, y = 0 the term is +inf
(expi(beta*v^2) = expi(0) = -inf makes the bracket +inf), the sum is
+inf, and the objective differs from the all-nonfinite-excluding sum
the claim describes (which is 0 here). -/
theorem C1_nonfinite_not_excluded :
    min_fun E0 Ei0 (1, 1) [0] [0] [] = FV.pinf
    ∧ min_fun_specNF E0 Ei0 (1, 1) [0] [0] = FV.fin 0
    ∧ min_fun E0 Ei0 (1, 1) [0] [0] [] ≠ min_fun_specNF E0 Ei0 (1, 1) [0] [0] := by
  refine ⟨?_, ?_, ?_⟩
  · norm_num +decide [min_fun, Q4terms, Q4term, nansum, expFV, expiFV, FV.sq,
      FV.sub, FV.add, FV.neg, FV.mul, E0, Ei0]
  · norm_num +decide [min_fun_specNF, Q4terms, Q4term, FV.toFin?, expFV, expiFV,
      FV.sq, FV.sub, FV.add, FV.neg, FV.mul, E0, Ei0]
  · norm_num +decide [min_fun, min_fun_specNF, Q4terms, Q4term, nansum, FV.toFin?,
      expFV, expiFV, FV.sq, FV.sub, FV.add, FV.neg, FV.mul, E0, Ei0]

/-- Claim C1 as amended: min_fun sums the squared residuals
(2*alpha*exp(-y_i) - (Ei(beta) - Ei(beta*v_i^2))*exp(-beta))^2 with
np.nansum, which excludes exactly the NaN terms (an infinite term is
kept and propagates).  For nonzero v_i every term is finite or NaN, so the
objective then agrees with the exclude-all-non-finite reading; and for
nonzero beta as well it is the plain finite sum of the claim's
residual formula. -/
theorem C1_objective_amended (E Ei : ℚ → ℚ) (x : ℚ × ℚ) (vvals yvals err : List ℚ)
    (hv : ∀ v ∈ vvals, v ≠ 0) :
    min_fun E Ei x vvals yvals err = min_fun_specNF E Ei x vvals yvals
    ∧ (x.2 ≠ 0 → min_fun E Ei x vvals yvals err
        = FV.fin (((vvals.zip yvals).map
            (fun p => (2 * x.1 * E (-p.2) - (Ei x.2 - Ei (x.2 * p.1 ^ 2)) * E (-x.2)) ^ 2)).sum)) := by
  constructor
  · rw [min_fun, min_fun_specNF]
    exact nansum_of_finOrNan _ (by
      intro t ht
      simp only [Q4terms, List.mem_map] at ht
      obtain ⟨p, hp, rfl⟩ := ht
      exact Q4term_finOrNan E Ei x.1 x.2 p.1 p.2 (hv p.1 (List.of_mem_zip hp).1))
  · intro hb
    have hterms : Q4terms E Ei x vvals yvals
        = (vvals.zip yvals).map (fun p =>
            FV.fin ((2 * x.1 * E (-p.2) - (Ei x.2 - Ei (x.2 * p.1 ^ 2)) * E (-x.2)) ^ 2)) := by
      unfold Q4terms
      apply List.map_congr_left
      intro p hp
      exact Q4term_eq_fin E Ei x.1 x.2 p.1 p.2 hb (hv p.1 (List.of_mem_zip hp).1)
    rw [min_fun, hterms, nansum_map_fin]

/-- Claim C1 witness: the amended theorem applied at a concrete input
with nonzero velocities. -/
theorem C1_objective_witness :
    (∀ v ∈ [(1 : ℚ)], v ≠ 0)
    ∧ min_fun E0 Ei0 (1, 1) [1] [0] [] = min_fun_specNF E0 Ei0 (1, 1) [1] [0] :=
  ⟨by norm_num, (C1_objective_amended E0 Ei0 (1, 1) [1] [0] [] (by norm_num)).1⟩

/-- Claim C9, counterexample.  At beta = 0 every term of the objective
is NaN (expi(0) - expi(0) = -inf + inf), i.e. every term is excluded,
and min_fun returns residual 0 (np.nansum of an all-NaN list), a plain
value, not a reported DomainSingularityError. -/
theorem C9_allNan_returns_zero :
    Q4terms E0 Ei0 (1, 0) [1] [0] = [FV.nan]
    ∧ min_fun E0 Ei0 (1, 0) [1] [0] [] = FV.fin 0
    ∧ FV.fin 0 ≠ FV.nan := by
  refine ⟨?_, ?_, by decide⟩
  · norm_num +decide [Q4terms, Q4term, expFV, expiFV, FV.sq, FV.sub, FV.add,
      FV.neg, FV.mul, E0, Ei0]
  · norm_num +decide [min_fun, Q4terms, Q4term, nansum, expFV, expiFV, FV.sq,
      FV.sub, FV.add, FV.neg, FV.mul, E0, Ei0]

/-- Claim C9 as amended: when every per-point term of the objective is
NaN (all terms excluded), min_fun returns 0, with no error of any
kind. -/
theorem C9_allNan_amended (E Ei : ℚ → ℚ) (x : ℚ × ℚ) (vvals yvals err : List ℚ)
    (h : ∀ t ∈ Q4terms E Ei x vvals yvals, t = FV.nan) :
    min_fun E Ei x vvals yvals err = FV.fin 0 := by
  rw [min_fun]
  exact nansum_of_allNan _ h

/-- Claim C9 witness: the amended theorem applied at the all-NaN input
beta = 0. -/
theorem C9_allNan_witness :
    min_fun E0 Ei0 (1, 0) [1] [0] [] = FV.fin 0 :=
  C9_allNan_amended E0 Ei0 (1, 0) [1] [0] []
    (by
      intro t ht
      have h0 : Q4terms E0 Ei0 (1, 0) [1] [0] = [FV.nan] := by
        norm_num +decide [Q4terms, Q4term, expFV, expiFV, FV.sq, FV.sub, FV.add,
          FV.neg, FV.mul, E0, Ei0]
      rw [h0] at ht
      simpa using ht)

/-- Claim C2 (confirmed): Q4_min starts the search at
beta0 = 1, alpha0 = exp(y_last)/(2*beta0) with y_last the last
normalized height (of the module-level Yvalues array the source reads),
passes the box bounds alpha in [0.01, 1000], beta in [0.0001, 20] to
the minimiser, and — for any minimiser honouring the scipy bounds
contract — the returned pair lies within those bounds. -/
theorem C2_bounds_and_start (E Ei : ℚ → ℚ) (M : Minimizer2)
    (Yglob vvals yvals err : List ℚ) (yl : ℚ)
    (hY : Yglob.getLast? = some yl) (hM : InBounds2 M) :
    Q4_min E Ei M Yglob vvals yvals err
      = some (M (fun x => min_fun E Ei x vvals yvals err)
          (E yl / (2 * 1), 1) (1/100, 1/10000) (1000, 20))
    ∧ ∀ a b, Q4_min E Ei M Yglob vvals yvals err = some (a, b) →
        (1/100 ≤ a ∧ a ≤ 1000) ∧ (1/10000 ≤ b ∧ b ≤ 20) := by
  have hred : Q4_min E Ei M Yglob vvals yvals err
      = some (M (fun x => min_fun E Ei x vvals yvals err)
          (E yl / (2 * 1), 1) (1/100, 1/10000) (1000, 20)) := by
    simp [Q4_min, hY]
  refine ⟨hred, ?_⟩
  intro a b hab
  rw [hred] at hab
  have hab2 : M (fun x => min_fun E Ei x vvals yvals err)
      (E yl / (2 * 1), 1) (1/100, 1/10000) (1000, 20) = (a, b) :=
    Option.some_injective _ hab
  have h := hM (fun x => min_fun E Ei x vvals yvals err)
    (E yl / (2 * 1), 1) (1/100, 1/10000) (1000, 20) (by norm_num) (by norm_num)
  rw [hab2] at h
  exact h

/-- Claim C2 witness: the theorem applied with a concrete bounds-honouring
minimiser. -/
theorem C2_bounds_witness :
    [(0 : ℚ)].getLast? = some 0
    ∧ InBounds2 Mlo2
    ∧ Q4_min E0 Ei0 Mlo2 [0] [] [] [] = some (1/100, 1/10000)
    ∧ ((1/100 ≤ (1/100 : ℚ) ∧ (1/100 : ℚ) ≤ 1000)
        ∧ (1/10000 ≤ (1/10000 : ℚ) ∧ (1/10000 : ℚ) ≤ 20)) := by
  have h := C2_bounds_and_start E0 Ei0 Mlo2 [0] [] [] [] 0 rfl Mlo2_inBounds
  have hval : Q4_min E0 Ei0 Mlo2 [0] [] [] [] = some (1/100, 1/10000) := by
    rw [h.1]; rfl
  exact ⟨rfl, Mlo2_inBounds, hval, h.2 (1/100) (1/10000) hval⟩

/-- Claim C3 (confirmed): in Q4_min_v the third unknown is V0/1000
(the starting point's third component), its box is
[0.95*(V0/1000), 1.05*(V0/1000)], the returned third component is the
optimum rescaled by 1000 and hence lies within 5 percent of the
supplied V0 for any bounds-honouring minimiser, and inside the
objective each raw velocity is divided by (third parameter * 1000). -/
theorem C3_v0_scaling (E Ei : ℚ → ℚ) (M : Minimizer3)
    (velocities heights : List ℚ) (h0 V0 : ℚ) (err : List ℚ) (yl : ℚ)
    (hY : (heights.map (fun j => j / h0)).getLast? = some yl)
    (hM : InBounds3 M) (hV : 0 < V0) :
    Q4_min_v E Ei M velocities heights h0 V0 err
      = some
          (let r := M
            (fun x => min_fun_v E Ei x velocities (heights.map (fun j => j / h0)) err)
            (E yl / (2 * (1/100)), 1/100, V0 / 1000)
            (1/100, 1/10000, (95/100) * (V0 / 1000))
            (1000, 20, (105/100) * (V0 / 1000));
          (r.1, r.2.1, r.2.2 * 1000))
    ∧ (∀ a b c, Q4_min_v E Ei M velocities heights h0 V0 err = some (a, b, c) →
        (95/100) * V0 ≤ c ∧ c ≤ (105/100) * V0)
    ∧ (∀ x : ℚ × ℚ × ℚ,
        min_fun_v E Ei x velocities (heights.map (fun j => j / h0)) err
          = min_fun E Ei (x.1, x.2.1)
              (velocities.map (fun v => v / (x.2.2 * 1000)))
              (heights.map (fun j => j / h0)) err) := by
  have e1 : V0 * (95/100) / 1000 = (95/100) * (V0 / 1000) := by ring
  have e2 : V0 * (105/100) / 1000 = (105/100) * (V0 / 1000) := by ring
  have hred : Q4_min_v E Ei M velocities heights h0 V0 err
      = some
          (let r := M
            (fun x => min_fun_v E Ei x velocities (heights.map (fun j => j / h0)) err)
            (E yl / (2 * (1/100)), 1/100, V0 / 1000)
            (1/100, 1/10000, (95/100) * (V0 / 1000))
            (1000, 20, (105/100) * (V0 / 1000));
          (r.1, r.2.1, r.2.2 * 1000)) := by
    simp [Q4_min_v, hY, e1, e2]
  refine ⟨hred, ?_, fun x => min_fun_v_eq_min_fun E Ei x velocities _ err err⟩
  intro a b c hab
  rw [hred] at hab
  have hab2 := Option.some_injective _ hab
  have hlo : (95/100) * (V0 / 1000) ≤ (105/100) * (V0 / 1000) := by linarith
  have h := hM
    (fun x => min_fun_v E Ei x velocities (heights.map (fun j => j / h0)) err)
    (E yl / (2 * (1/100)), 1/100, V0 / 1000)
    (1/100, 1/10000, (95/100) * (V0 / 1000))
    (1000, 20, (105/100) * (V0 / 1000)) (by norm_num) (by norm_num) hlo
  have hc : c = (M
      (fun x => min_fun_v E Ei x velocities (heights.map (fun j => j / h0)) err)
      (E yl / (2 * (1/100)), 1/100, V0 / 1000)
      (1/100, 1/10000, (95/100) * (V0 / 1000))
      (1000, 20, (105/100) * (V0 / 1000))).2.2 * 1000 := by
    have := congrArg (fun p : ℚ × ℚ × ℚ => p.2.2) hab2
    simpa using this.symm
  constructor
  · have := h.2.2.1
    rw [hc]; linarith
  · have := h.2.2.2
    rw [hc]; linarith

/-- Claim C3 witness: the theorem applied with a concrete
bounds-honouring minimiser and V0 = 1000. -/
theorem C3_v0_witness :
    (0 : ℚ) < 1000
    ∧ InBounds3 Mlo3
    ∧ Q4_min_v E0 Ei0 Mlo3 [2] [1] 1 1000 [] = some (1/100, 1/10000, 950)
    ∧ ((95/100) * (1000 : ℚ) ≤ 950 ∧ (950 : ℚ) ≤ (105/100) * 1000) := by
  have hY : (([1] : List ℚ).map (fun j => j / 1)).getLast? = some 1 := by norm_num
  have h := C3_v0_scaling E0 Ei0 Mlo3 [2] [1] 1 1000 [] 1 hY Mlo3_inBounds (by norm_num)
  have hval : Q4_min_v E0 Ei0 Mlo3 [2] [1] 1 1000 [] = some (1/100, 1/10000, 950) := by
    rw [h.1]; norm_num [Mlo3]
  exact ⟨by norm_num, Mlo3_inBounds, hval, h.2.1 (1/100) (1/10000) 950 hval⟩

/-- Claim C8 (confirmed): evaluating the Section 3.1 manual-mode
residual min_fun_v([alpha, beta, V0/1000], vel, yvalues, []) at the
two-parameter optimizer's own output (alpha, beta), with the same
reference velocity v0 used to normalise the optimizer's input, equals
the optimizer's final objective min_fun at that output — the round-trip
reproduces the reported residual. -/
theorem C8_roundtrip (E Ei : ℚ → ℚ) (M : Minimizer2) (Yglob : List ℚ)
    (v0 h0 : ℚ) (vel alt err : List ℚ) (a b : ℚ)
    (hv0 : v0 ≠ 0)
    (hfit : Q4_min E Ei M Yglob (vel.map (fun v => v / v0))
      (alt.map (fun j => j / h0)) err = some (a, b)) :
    min_fun_v E Ei (a, b, v0 / 1000) vel (alt.map (fun j => j / h0)) []
      = min_fun E Ei (a, b) (vel.map (fun v => v / v0))
          (alt.map (fun j => j / h0)) err := by
  rw [min_fun_v_eq_min_fun E Ei (a, b, v0 / 1000) vel (alt.map (fun j => j / h0)) [] err]
  have hscale : v0 / 1000 * 1000 = v0 := by ring
  simp [hscale]

/-- Claim C8 witness: the round-trip theorem applied at a concrete fit. -/
theorem C8_roundtrip_witness :
    (1 : ℚ) ≠ 0
    ∧ min_fun_v E0 Ei0 (1/100, 1/10000, 1 / 1000) [2]
        (([3] : List ℚ).map (fun j => j / 1)) []
      = min_fun E0 Ei0 (1/100, 1/10000) (([2] : List ℚ).map (fun v => v / 1))
          (([3] : List ℚ).map (fun j => j / 1)) [] :=
  ⟨by norm_num,
    C8_roundtrip E0 Ei0 Mlo2 [0] 1 1 [2] [3] [] (1/100) (1/10000) (by norm_num)
      (by norm_num [Q4_min, Mlo2])⟩

/-- Claim C10 (confirmed): the initial guess of Q4_min reads the
module-level Yvalues array, not the yvals argument: with identical
(vvals, yvals, err) arguments but different globals whose last entries
give different exp values, the starting point — and, for a minimiser
sensitive to its starting point (Mx0 returns it) — the output differ. -/
theorem C10_global_dependence (E Ei : ℚ → ℚ) (vvals yvals err : List ℚ)
    (Yg Yg2 : List ℚ) (yl yl2 : ℚ)
    (h1 : Yg.getLast? = some yl) (h2 : Yg2.getLast? = some yl2)
    (hne : E yl ≠ E yl2) :
    Q4_min E Ei Mx0 Yg vvals yvals err = some (E yl / (2 * 1), 1)
    ∧ Q4_min E Ei Mx0 Yg2 vvals yvals err = some (E yl2 / (2 * 1), 1)
    ∧ Q4_min E Ei Mx0 Yg vvals yvals err ≠ Q4_min E Ei Mx0 Yg2 vvals yvals err := by
  have e1 : Q4_min E Ei Mx0 Yg vvals yvals err = some (E yl / (2 * 1), 1) := by
    simp [Q4_min, h1, Mx0]
  have e2 : Q4_min E Ei Mx0 Yg2 vvals yvals err = some (E yl2 / (2 * 1), 1) := by
    simp [Q4_min, h2, Mx0]
  refine ⟨e1, e2, ?_⟩
  rw [e1, e2]
  intro hcontra
  have hpair := Option.some_injective _ hcontra
  have hfst : E yl / (2 * 1) = E yl2 / (2 * 1) := congrArg Prod.fst hpair
  apply hne
  field_simp at hfst
  exact hfst

/-- Claim C10 witness: two calls with identical arguments and different
globals produce different outputs. -/
theorem C10_global_witness :
    [(0 : ℚ)].getLast? = some 0
    ∧ [(2 : ℚ)].getLast? = some 2
    ∧ E1 0 ≠ E1 2
    ∧ Q4_min E1 Ei0 Mx0 [0] [5] [5] [] ≠ Q4_min E1 Ei0 Mx0 [2] [5] [5] [] :=
  ⟨rfl, rfl, by norm_num [E1],
    (C10_global_dependence E1 Ei0 [5] [5] [] [0] [2] 0 2 rfl rfl
      (by norm_num [E1])).2.2⟩

/-- Claim C4 (confirmed): a row with velocity <= 1 is never among the
rows surviving the normalisation cell's filter, every surviving row has
velocity > 1, and inserting such a row anywhere in the data leaves the
auto-computed reference velocity (nanmean of the first 10 surviving
velocities) unchanged — the filter precedes the mean. -/
theorem C4_velocity_filter :
    (∀ data : List (ℚ × ℚ), ∀ p ∈ keptRows data, (1 : ℚ) < p.1)
    ∧ (∀ data : List (ℚ × ℚ), ∀ p : ℚ × ℚ, p.1 ≤ 1 → p ∉ keptRows data)
    ∧ (∀ l1 l2 : List (ℚ × ℚ), ∀ bad : ℚ × ℚ, bad.1 ≤ 1 →
        v0autoFull (l1 ++ bad :: l2) = v0autoFull (l1 ++ l2)) := by
  refine ⟨?_, ?_, ?_⟩
  · intro data p hp
    simpa using List.of_mem_filter hp
  · intro data p hple hmem
    have h1 : (1 : ℚ) < p.1 := by simpa using List.of_mem_filter hmem
    linarith
  · intro l1 l2 bad hbad
    have hb : ¬ ((1 : ℚ) < bad.1) := not_lt.mpr hbad
    simp [v0autoFull, keptRows, List.filter_append, List.filter_cons, hb]

/-- Claim C4 witness: the filter and mean-invariance facts at concrete
inputs. -/
theorem C4_velocity_filter_witness :
    ((1/2 : ℚ), (7 : ℚ)).1 ≤ 1
    ∧ ((1/2 : ℚ), (7 : ℚ)) ∉ keptRows [((1/2 : ℚ), (7 : ℚ))]
    ∧ v0autoFull ([((2 : ℚ), (1 : ℚ))] ++ ((1 : ℚ), (9 : ℚ)) :: [((3 : ℚ), (4 : ℚ))])
      = v0autoFull ([((2 : ℚ), (1 : ℚ))] ++ [((3 : ℚ), (4 : ℚ))]) :=
  ⟨by norm_num,
    C4_velocity_filter.2.1 [((1/2 : ℚ), (7 : ℚ))] ((1/2 : ℚ), (7 : ℚ)) (by norm_num),
    C4_velocity_filter.2.2 [((2 : ℚ), (1 : ℚ))] [((3 : ℚ), (4 : ℚ))]
      ((1 : ℚ), (9 : ℚ)) (by norm_num)⟩

/-- Claim C5, counterexample.  On an empty observation sequence the
reference-velocity computation does not fail: np.nanmean of the empty
slice yields the degenerate value NaN, and the cell then aborts with an
IndexError at the scale-height selection alt[0] — not with an
InsufficientDataError. -/
theorem C5_empty_behaviour :
    v0autoFull [] = FV.nan
    ∧ normCell none [] = NormResult.err NormErr.indexError
    ∧ NormResult.err NormErr.indexError
        ≠ NormResult.err NormErr.insufficientDataError := by
  exact ⟨by decide, by decide, by decide⟩

/-- Claim C5 as amended: with no supplied reference velocity it is the
mean of the first 10 surviving velocities (fewer when fewer survive);
on an empty sequence that mean is NaN rather than an error, and the
normalisation cell subsequently raises IndexError at scale-height
selection. -/
theorem C5_reference_velocity_amended :
    (∀ data : List (ℚ × ℚ), ((keptRows data).map Prod.fst) ≠ [] →
      v0autoFull data
        = FV.fin (((((keptRows data).map Prod.fst).take 10).sum)
            / ((min 10 ((keptRows data).map Prod.fst).length : ℕ) : ℚ)))
    ∧ v0autoFull [] = FV.nan
    ∧ normCell none [] = NormResult.err NormErr.indexError := by
  refine ⟨?_, by decide, by decide⟩
  intro data hne
  have hlen0 : ((keptRows data).map Prod.fst).length ≠ 0 :=
    fun h => hne (List.length_eq_zero.mp h)
  have hpos : ((((keptRows data).map Prod.fst).take 10).length) ≠ 0 := by
    simp only [List.length_take]
    omega
  have hk : keptRows data ≠ [] := by
    intro h
    exact hne (by simp [h])
  simp [v0autoFull, nanmeanQ, hpos, List.length_take, hk]

/-- Claim C5 witness: the amended mean formula at a concrete surviving
row. -/
theorem C5_reference_velocity_witness :
    ((keptRows [((2 : ℚ), (5 : ℚ))]).map Prod.fst) ≠ []
    ∧ v0autoFull [((2 : ℚ), (5 : ℚ))]
      = FV.fin (((((keptRows [((2 : ℚ), (5 : ℚ))]).map Prod.fst).take 10).sum)
          / ((min 10 ((keptRows [((2 : ℚ), (5 : ℚ))]).map Prod.fst).length : ℕ) : ℚ)) :=
  ⟨by decide,
    C5_reference_velocity_amended.1 [((2 : ℚ), (5 : ℚ))] (by decide)⟩

/-- Claim C6, counterexample.  For the length-3 velocity sequence
[2, 3, 4] (n = 3, within the claim's scope n >= 3), applying the
smoothing pass twice yields length 0, not n - 4 = -1: the claim that a
double pass always reduces total length by exactly 4 fails at n = 3
(and no error of any kind is raised for the empty result). -/
theorem C6_double_pass_length :
    3 ≤ ([2, 3, 4] : List ℚ).length
    ∧ (smoothTwice [2, 3, 4] [1, 2, 3]).1.length = 0
    ∧ ((smoothTwice [2, 3, 4] [1, 2, 3]).1.length : ℤ)
        ≠ (([2, 3, 4] : List ℚ).length : ℤ) - 4 := by
  exact ⟨by decide, by decide, by decide⟩

/-- Claim C6 as amended: a single pass maps length n to n - 2 with
output[i] = mean(input[i], input[i+1], input[i+2]) paired with the
height at the middle index i+1, and a double pass yields length
n - 4 truncated at 0 (so exactly n - 4 only for n >= 4); an empty
result is returned silently, with no error. -/
theorem C6_smoothing_amended (vel alt : List ℚ) (i : ℕ) (hi : i + 2 < vel.length) :
    (smoothPass vel alt).1.length = vel.length - 2
    ∧ (smoothPass vel alt).1.getD i 0
        = (vel.getD i 0 + vel.getD (i + 1) 0 + vel.getD (i + 2) 0) / 3
    ∧ (smoothPass vel alt).2.getD i 0 = alt.getD (i + 1) 0
    ∧ (smoothTwice vel alt).1.length = vel.length - 4 := by
  have hlen : (smoothPass vel alt).1.length = vel.length - 2 := by
    simp [smoothPass]
  have hrange : i < vel.length - 2 := by omega
  refine ⟨hlen, ?_, ?_, ?_⟩
  · simp [smoothPass, List.getD_eq_getElem?_getD, List.getElem?_map,
      List.getElem?_range, hrange]
  · simp [smoothPass, List.getD_eq_getElem?_getD, List.getElem?_map,
      List.getElem?_range, hrange]
  · have h2 : (smoothTwice vel alt).1.length
        = (smoothPass vel alt).1.length - 2 := by
      simp [smoothTwice, smoothPass]
    rw [h2, hlen]
    omega

/-- Claim C6 witness: the amended pass semantics at a concrete length-5
input. -/
theorem C6_smoothing_witness :
    (0 + 2 < ([1, 2, 3, 4, 5] : List ℚ).length)
    ∧ (smoothPass [1, 2, 3, 4, 5] [6, 7, 8, 9, 10]).1.length
        = ([1, 2, 3, 4, 5] : List ℚ).length - 2
    ∧ (smoothPass [1, 2, 3, 4, 5] [6, 7, 8, 9, 10]).1.getD 0 0
        = (([1, 2, 3, 4, 5] : List ℚ).getD 0 0 + ([1, 2, 3, 4, 5] : List ℚ).getD 1 0
            + ([1, 2, 3, 4, 5] : List ℚ).getD 2 0) / 3
    ∧ (smoothPass [1, 2, 3, 4, 5] [6, 7, 8, 9, 10]).2.getD 0 0
        = ([6, 7, 8, 9, 10] : List ℚ).getD 1 0
    ∧ (smoothTwice [1, 2, 3, 4, 5] [6, 7, 8, 9, 10]).1.length
        = ([1, 2, 3, 4, 5] : List ℚ).length - 4 := by
  have h := C6_smoothing_amended [1, 2, 3, 4, 5] [6, 7, 8, 9, 10] 0 (by decide)
  exact ⟨by decide, h.1, h.2.1, h.2.2.1, h.2.2.2⟩

/-- Claim C7, counterexample.  At mu = 1 (with beta = 1 > 0 and the
other parameters valid) the final-mass expression silently evaluates to
the ordinary finite value 0 — exp(-beta/(1-mu)) = exp(-inf) = 0.0 with
warnings suppressed — neither failing, nor flagging a domain error, nor
producing a non-finite mass. -/
theorem C7_mu_one_silent_zero :
    m_txt E0 1 1 1 1 1 1 1 0 = FV.fin 0
    ∧ FV.fin (0 : ℚ) ≠ FV.nan
    ∧ FV.fin (0 : ℚ) ≠ FV.pinf
    ∧ FV.fin (0 : ℚ) ≠ FV.ninf := by
  refine ⟨?_, by decide, by decide, by decide⟩
  norm_num +decide [m_txt, expFV, FV.div, FV.mul, FV.cube, E0]

/-- Claim C7 as amended: for mu different from 1 the final mass is
(0.5*cd*1.29*7160*A/(alpha*sin(slope)*rho^(2/3)))^3
  * exp(-beta/(1-mu)) * (1 - v_last^2) exactly as claimed; at mu = 1
with beta > 0 the expression evaluates silently to 0 (division by the
zero of 1-mu gives -inf, and exp(-inf) = 0), with no error raised. -/
theorem C7_final_mass_amended (E : ℚ → ℚ) (alpha beta mu cd rho23 A s vlast : ℚ)
    (hden : alpha * s * rho23 ≠ 0) :
    (mu ≠ 1 → m_txt E alpha beta mu cd rho23 A s vlast
        = FV.fin ((((1/2) * cd * (129/100) * 7160 * A / (alpha * s * rho23)) ^ 3)
            * E (-beta / (1 - mu)) * (1 - vlast ^ 2)))
    ∧ (mu = 1 → 0 < beta → m_txt E alpha beta mu cd rho23 A s vlast = FV.fin 0) := by
  constructor
  · intro hmu
    have h1 : (1 : ℚ) - mu ≠ 0 := sub_ne_zero.mpr (Ne.symm hmu)
    simp [m_txt, FV.div, FV.mul, FV.cube, expFV, hden, h1, neg_div]
  · intro hmu hbeta
    subst hmu
    have h3 : ¬ ((0 : ℚ) < -beta) := by linarith
    have h4 : -beta < (0 : ℚ) := by linarith
    simp [m_txt, FV.div, FV.mul, FV.cube, expFV, hden, h3, h4]

/-- Claim C7 witness: the amended theorem applied at mu = 2/3 (the
formula case) and at mu = 1 (the silent-zero case). -/
theorem C7_final_mass_witness :
    ((1 : ℚ) * 1 * 1 ≠ 0)
    ∧ m_txt E0 1 1 (2/3) 1 1 1 1 0
      = FV.fin ((((1/2) * 1 * (129/100) * 7160 * 1 / ((1 : ℚ) * 1 * 1)) ^ 3)
          * E0 (-1 / (1 - 2/3)) * (1 - (0 : ℚ) ^ 2))
    ∧ m_txt E0 1 1 1 1 1 1 1 0 = FV.fin 0 :=
  ⟨by norm_num,
    (C7_final_mass_amended E0 1 1 (2/3) 1 1 1 1 0 (by norm_num)).1 (by norm_num),
    (C7_final_mass_amended E0 1 1 1 1 1 1 1 0 (by norm_num)).2 rfl (by norm_num)⟩

end AlphaBeta
